import Mathlib

/-!
Shallow embedding of the dissect.ffs BSD Fast File System (FFS/UFS) parser:
superblock location and validation, block-arithmetic helpers, the inode
direct/indirect block walk, the run-list builder, directory iteration, the
inode handle cache, inode type resolution, short-symlink inline decoding and
path resolution, together with theorems checking the specification claims.

The byte source (the Python file handle) is modelled by pure lookup
functions: the superblock decode attempt at a byte offset is a function
from offsets to optional decoded superblocks, reads of address arrays from
indirect blocks are a function from (device byte offset, count) to address
lists, and the decode of a directory entry at an offset inside a directory
stream is a function from offsets to optional entries.  Decode failures
(exceptions in the Python source) are the none cases of these functions.
-/

/-! ### Constants from c_ffs.py and the stat module -/

/-- Superblock probe offset for tiny media, from c_ffs.py. -/
def SBLOCK_FLOPPY : Nat := 0

/-- Historic UFS1 superblock probe offset, from c_ffs.py. -/
def SBLOCK_UFS1 : Nat := 8192

/-- Default UFS2 superblock probe offset, from c_ffs.py. -/
def SBLOCK_UFS2 : Nat := 65536

/-- Large-boot-area superblock probe offset, from c_ffs.py. -/
def SBLOCK_PIGGY : Nat := 262144

/-- Size of a superblock, from c_ffs.py. -/
def SBLOCKSIZE : Int := 8192

/-- Smallest allowable block size, from c_ffs.py. -/
def MINBSIZE : Int := 4096

/-- Largest allowable block size, from c_ffs.py. -/
def MAXBSIZE : Int := 65536

/-- UFS1 fast filesystem magic number, from c_ffs.py. -/
def FS_UFS1_MAGIC : Int := 0x011954

/-- UFS2 fast filesystem magic number, from c_ffs.py. -/
def FS_UFS2_MAGIC : Int := 0x19540119

/-- Inode number of the root directory, from c_ffs.py. -/
def UFS_ROOTINO : Nat := 2

/-- Number of direct addresses in an inode, from c_ffs.py. -/
def UFS_NDADDR : Nat := 12

/-- Number of indirect addresses in an inode, from c_ffs.py. -/
def UFS_NIADDR : Nat := 3

/-- Device block size used by ffs.py. -/
def DEV_BSIZE : Int := 512

/-- POSIX file-type mask applied by stat.S_IFMT in INode.type. -/
def S_IFMT (m : Nat) : Nat := m &&& 0xF000

/-- Directory file-type nibble. -/
def S_IFDIR : Nat := 0x4000

/-- Symbolic-link file-type nibble. -/
def S_IFLNK : Nat := 0xA000

/-- Regular-file file-type nibble. -/
def S_IFREG : Nat := 0x8000

/-! ### Data model -/

/-- The fields of the on-disk superblock (struct fs in c_ffs.py) that the
embedded operations consult.  Signed C fields are Int, unsigned are Nat,
mirroring the cstruct declaration. -/
structure SB where
  fs_magic : Int
  fs_ncg : Nat
  fs_bsize : Int
  fs_fsize : Int
  fs_frag : Int
  fs_fragshift : Int
  fs_fsbtodb : Int
  fs_sbsize : Int
  fs_ipg : Nat
  fs_inopb : Nat
  fs_nindir : Int
  fs_maxsymlinklen : Int
deriving DecidableEq

/-- Errors raised by the library (exceptions.py plus decode failures); the
out-of-fuel case stands for non-termination of the unbounded Python loops,
which no theorem relies on. -/
inductive FsError where
  | superblockNotFound
  | fileNotFound
  | notADirectory
  | notASymlink
  | decodeFailed
  | outOfFuel
deriving DecidableEq

/-- Search order of the four superblock probe offsets, from ffs.py. -/
def SBLOCKSEARCH : List Nat := [SBLOCK_UFS2, SBLOCK_UFS1, SBLOCK_FLOPPY, SBLOCK_PIGGY]

/-- FFS.read_sb from ffs.py: attempt to decode a superblock at the given
offset (the decode result, or failure, is given by the disk function) and
validate magic, cylinder-group count, block size and superblock size.
Returns none when the decode failed or any check fails. -/
def FFS.read_sb (disk : Nat → Option SB) (offset : Nat) : Option SB :=
  match disk offset with
  | none => none
  | some sb =>
    if sb.fs_magic ≠ FS_UFS1_MAGIC ∧ sb.fs_magic ≠ FS_UFS2_MAGIC then none
    else if sb.fs_ncg < 1 ∨ ¬ (MINBSIZE ≤ sb.fs_bsize ∧ sb.fs_bsize ≤ MAXBSIZE)
        ∨ SBLOCKSIZE < sb.fs_sbsize then none
    else some sb

/-- The superblock search loop of FFS.__init__ in ffs.py: probe the
offsets of SBLOCKSEARCH in order, keep the first accepted candidate, and
fail with the superblock-not-found error when every probe is rejected. -/
def FFS.find_sb (disk : Nat → Option SB) : Except FsError SB :=
  match SBLOCKSEARCH.findSome? (FFS.read_sb disk) with
  | some sb => Except.ok sb
  | none => Except.error FsError.superblockNotFound

/-- Acceptance condition on a decoded superblock candidate, written from
the words of the specification, to be compared with FFS.read_sb. -/
def acceptedSB (sb : SB) : Prop :=
  (sb.fs_magic = 0x011954 ∨ sb.fs_magic = 0x19540119) ∧
    1 ≤ sb.fs_ncg ∧ (4096 ≤ sb.fs_bsize ∧ sb.fs_bsize ≤ 65536) ∧ sb.fs_sbsize ≤ 8192

/-! ### Block-arithmetic helpers (the C macros at the end of ffs.py) -/

/-- fsbtodb from ffs.py: fragment address to 512-byte device block
(a left shift by the superblock shift constant). -/
def fsbtodb (sb : SB) (b : Int) : Int := b * 2 ^ sb.fs_fsbtodb.toNat

/-- ino_to_cg from ffs.py: inode number to cylinder group number. -/
def ino_to_cg (sb : SB) (x : Nat) : Nat := x / sb.fs_ipg

/-- ino_to_fsbo from ffs.py: inode number to filesystem block offset. -/
def ino_to_fsbo (sb : SB) (x : Nat) : Nat := x % sb.fs_inopb

/-! ### Claim C1 -/

/-- Claim C1: volume construction probes the superblock candidates at byte
offsets 65536, 8192, 0, 262144 in that order; a candidate is accepted if
and only if its decode did not fail, its magic is the UFS1 or UFS2 magic,
ncg is at least 1, bsize lies in the closed range 4096 to 65536 and sbsize
is at most 8192; a decode failure at a probe is rejected rather than
aborting the search; the first valid candidate is used; and when no
candidate is valid construction fails with the superblock-not-found
error. -/
theorem claim_c1 :
    SBLOCKSEARCH = [65536, 8192, 0, 262144] ∧
    (∀ disk offset sb, FFS.read_sb disk offset = some sb ↔
      disk offset = some sb ∧ acceptedSB sb) ∧
    (∀ disk offset, disk offset = none → FFS.read_sb disk offset = none) ∧
    (∀ disk sb, FFS.find_sb disk = Except.ok sb ↔
      (FFS.read_sb disk 65536 = some sb ∨
       (FFS.read_sb disk 65536 = none ∧ FFS.read_sb disk 8192 = some sb) ∨
       (FFS.read_sb disk 65536 = none ∧ FFS.read_sb disk 8192 = none ∧
        FFS.read_sb disk 0 = some sb) ∨
       (FFS.read_sb disk 65536 = none ∧ FFS.read_sb disk 8192 = none ∧
        FFS.read_sb disk 0 = none ∧ FFS.read_sb disk 262144 = some sb))) ∧
    (∀ disk, FFS.find_sb disk = Except.error FsError.superblockNotFound ↔
      (FFS.read_sb disk 65536 = none ∧ FFS.read_sb disk 8192 = none ∧
       FFS.read_sb disk 0 = none ∧ FFS.read_sb disk 262144 = none)) := by
  refine ⟨rfl, ?_, ?_, ?_, ?_⟩
  · intro disk offset sb
    cases hd : disk offset with
    | none => simp [FFS.read_sb, hd]
    | some sb0 =>
      simp only [FFS.read_sb, hd, acceptedSB, FS_UFS1_MAGIC, FS_UFS2_MAGIC,
        MINBSIZE, MAXBSIZE, SBLOCKSIZE]
      constructor
      · intro h
        by_cases h1 : sb0.fs_magic ≠ 0x011954 ∧ sb0.fs_magic ≠ 0x19540119
        · rw [if_pos h1] at h; cases h
        · rw [if_neg h1] at h
          by_cases h2 : sb0.fs_ncg < 1 ∨
              ¬ (4096 ≤ sb0.fs_bsize ∧ sb0.fs_bsize ≤ 65536) ∨ 8192 < sb0.fs_sbsize
          · rw [if_pos h2] at h; cases h
          · rw [if_neg h2] at h
            cases h
            refine ⟨rfl, by tauto, by omega, by omega, by omega⟩
      · rintro ⟨hdec, hmag, hncg, hbs, hsb⟩
        cases hdec
        rw [if_neg (by tauto), if_neg (by omega)]
  · intro disk offset h
    unfold FFS.read_sb
    rw [h]
  · intro disk sb
    show (match (SBLOCKSEARCH.findSome? (FFS.read_sb disk)) with
      | some sb => Except.ok sb
      | none => Except.error FsError.superblockNotFound) = Except.ok sb ↔ _
    rw [show SBLOCKSEARCH = [65536, 8192, 0, 262144] from rfl]
    simp only [List.findSome?]
    cases h1 : FFS.read_sb disk 65536 <;>
      cases h2 : FFS.read_sb disk 8192 <;>
        cases h3 : FFS.read_sb disk 0 <;>
          cases h4 : FFS.read_sb disk 262144 <;>
            simp
  · intro disk
    show (match (SBLOCKSEARCH.findSome? (FFS.read_sb disk)) with
      | some sb => Except.ok sb
      | none => Except.error FsError.superblockNotFound) =
        Except.error FsError.superblockNotFound ↔ _
    rw [show SBLOCKSEARCH = [65536, 8192, 0, 262144] from rfl]
    simp only [List.findSome?]
    cases h1 : FFS.read_sb disk 65536 <;>
      cases h2 : FFS.read_sb disk 8192 <;>
        cases h3 : FFS.read_sb disk 0 <;>
          cases h4 : FFS.read_sb disk 262144 <;>
            simp

/-- Witness for claim C1: a concrete disk whose only valid superblock sits
at offset 8192 makes construction return that superblock, by the
first-valid characterization of claim_c1. -/
theorem claim_c1_witness :
    FFS.find_sb (fun o => if o = 8192 then
        some ⟨0x011954, 4, 8192, 1024, 8, 3, 1, 1376, 128, 64, 2048, 60⟩
      else none) =
      Except.ok ⟨0x011954, 4, 8192, 1024, 8, 3, 1, 1376, 128, 64, 2048, 60⟩ := by
  exact (claim_c1.2.2.2.1 _ _).mpr (Or.inr (Or.inl (by constructor <;> decide)))

/-! ### Claim C8 -/

/-- Claim C8: for every valid superblock geometry (ipg and inopb at least
one) and every inode number i in the range from 2 up to but excluding
ncg times ipg, ino_to_cg gives a cylinder group below ncg and ino_to_fsbo
gives an in-block index below inopb. -/
theorem claim_c8 (sb : SB) (i : Nat) (hipg : 1 ≤ sb.fs_ipg)
    (hinopb : 1 ≤ sb.fs_inopb) (hlo : 2 ≤ i)
    (hhi : i < sb.fs_ncg * sb.fs_ipg) :
    ino_to_cg sb i < sb.fs_ncg ∧ ino_to_fsbo sb i < sb.fs_inopb := by
  constructor
  · unfold ino_to_cg
    exact Nat.div_lt_of_lt_mul (by rw [Nat.mul_comm]; exact hhi)
  · exact Nat.mod_lt _ (by omega)

/-- Witness for claim C8 at a concrete geometry and inode number. -/
theorem claim_c8_witness :
    ino_to_cg ⟨0x19540119, 3, 32768, 4096, 8, 3, 3, 4096, 2, 4, 4096, 120⟩ 3 <
        (⟨0x19540119, 3, 32768, 4096, 8, 3, 3, 4096, 2, 4, 4096, 120⟩ : SB).fs_ncg ∧
      ino_to_fsbo ⟨0x19540119, 3, 32768, 4096, 8, 3, 3, 4096, 2, 4, 4096, 120⟩ 3 <
        (⟨0x19540119, 3, 32768, 4096, 8, 3, 3, 4096, 2, 4, 4096, 120⟩ : SB).fs_inopb :=
  claim_c8 _ 3 (by decide) (by decide) (by decide) (by decide)

/-! ### Inode handle cache (FFS.__init__ wraps FFS.inode in lru_cache) -/

/-- Key of a memoized FFS.inode call.  Python functools.lru_cache keys a
call on the full argument tuple, here (inum, name, filetype, parent); the
parent handle is identified by its handle number. -/
abbrev InodeKey := Nat × Option String × Option Nat × Option Nat

/-- State of the lru_cache around FFS.inode: entries in most-recent-first
order mapping call keys to handle numbers, plus a counter allocating the
identity of the next freshly constructed INode object. -/
structure InodeCache where
  entries : List (InodeKey × Nat)
  next_id : Nat
deriving DecidableEq

/-- Lookup of a call key among the cache entries. -/
def cache_lookup (k : InodeKey) : List (InodeKey × Nat) → Option Nat
  | [] => none
  | e :: rest => if e.1 = k then some e.2 else cache_lookup k rest

/-- One call of the memoized FFS.inode: a hit returns the cached handle
and refreshes its recency, a miss constructs a fresh INode handle, records
it under the full argument tuple, and evicts beyond the capacity. -/
def inode_call (cap : Nat) (cache : InodeCache) (k : InodeKey) : Nat × InodeCache :=
  match cache_lookup k cache.entries with
  | some v =>
    (v, ⟨(k, v) :: cache.entries.filter (fun e => decide (e.1 ≠ k)), cache.next_id⟩)
  | none =>
    (cache.next_id, ⟨((k, cache.next_id) :: cache.entries).take cap, cache.next_id + 1⟩)

/-! ### Claim C3 -/

/-- Counterexample to claim C3: on a fresh cache, requesting inum 2 with
name "/" and then inum 2 with name "a" constructs two distinct handles,
because lru_cache keys on the full argument tuple rather than on the inode
number alone. -/
theorem claim_c3_counterexample :
    (inode_call 4096
        (inode_call 4096 ⟨[], 0⟩ (2, some "/", none, none)).2
        (2, some "a", none, none)).1 ≠
      (inode_call 4096 ⟨[], 0⟩ (2, some "/", none, none)).1 := by
  decide

/-- Claim C3 as amended: the inode cache keys on the full argument tuple
(inum, name, filetype hint, parent); two calls with the same complete
argument tuple resolve to the same cached handle (the second call
immediately after the first is a hit), while calls sharing only the inum
may construct distinct handles. -/
theorem claim_c3_amended (cap : Nat) (cache : InodeCache) (k : InodeKey)
    (hcap : 1 ≤ cap) :
    (inode_call cap (inode_call cap cache k).2 k).1 =
      (inode_call cap cache k).1 := by
  unfold inode_call
  cases h : cache_lookup k cache.entries with
  | some v =>
    simp only [h]
    have : cache_lookup k ((k, v) :: cache.entries.filter (fun e => decide (e.1 ≠ k)))
        = some v := by
      unfold cache_lookup
      rw [if_pos rfl]
    rw [this]
  | none =>
    simp only [h]
    have htake : ((k, cache.next_id) :: cache.entries).take cap
        = (k, cache.next_id) :: cache.entries.take (cap - 1) := by
      cases cap with
      | zero => omega
      | succ n => simp [List.take_succ_cons]
    rw [htake]
    have : cache_lookup k ((k, cache.next_id) :: cache.entries.take (cap - 1))
        = some cache.next_id := by
      unfold cache_lookup
      rw [if_pos rfl]
    rw [this]

/-- Witness for the amended claim C3 at a concrete cache state. -/
theorem claim_c3_amended_witness :
    (inode_call 4096
        (inode_call 4096 ⟨[], 7⟩ (5, some "x", some 0x4000, some 2)).2
        (5, some "x", some 0x4000, some 2)).1 =
      (inode_call 4096 ⟨[], 7⟩ (5, some "x", some 0x4000, some 2)).1 :=
  claim_c3_amended 4096 ⟨[], 7⟩ (5, some "x", some 0x4000, some 2) (by decide)

/-! ### Inode type resolution (INode.type) -/

/-- INode.type from ffs.py: the Python expression is the or-combination of
the filetype hint passed at construction with the masked mode of the
on-disk record.  The hint is the first component; the second component is
the mode of the on-disk inode record when that record can be loaded, and
none when it cannot, so that a result that is defined even for the none
case demonstrates that the record is not loaded.  A hint of 0 is falsy in
Python, so it falls through to loading the record. -/
def INode.itype (filetype : Option Nat) (loaded_mode : Option Nat) : Option Nat :=
  match filetype with
  | some t => if t = 0 then loaded_mode.map S_IFMT else some t
  | none => loaded_mode.map S_IFMT

/-! ### Claim C5 -/

/-- Counterexample to claim C5: a handle constructed with the filetype
hint 0 (the shifted DT_UNKNOWN of a directory entry) does not return that
hint: the Python or-expression treats 0 as falsy, loads the record, and
returns the masked mode, and without a loadable record it produces no
value at all. -/
theorem claim_c5_counterexample :
    INode.itype (some 0) (some 0x41ED) ≠ some 0 ∧
      INode.itype (some 0) none = none := by
  decide

/-- Claim C5 as amended: a handle constructed with a nonzero filetype hint
returns the hint from type() regardless of the on-disk record, hence
without loading it; a handle with no hint, or with the hint 0 (which is
falsy in the Python or-expression), loads the record and returns its mode
masked with 0xF000. -/
theorem claim_c5_amended (t : Nat) (r : Option Nat) (ht : t ≠ 0) :
    INode.itype (some t) r = some t ∧
      INode.itype none r = r.map S_IFMT ∧
      INode.itype (some 0) r = r.map S_IFMT := by
  refine ⟨?_, rfl, ?_⟩
  · simp [INode.itype, ht]
  · simp [INode.itype]

/-- Witness for the amended claim C5 at a concrete hint and record. -/
theorem claim_c5_amended_witness :
    INode.itype (some 0x8000) (some 0x41ED) = some 0x8000 ∧
      INode.itype none (some 0x41ED) = (some 0x41ED).map S_IFMT ∧
      INode.itype (some 0) (some 0x41ED) = (some 0x41ED).map S_IFMT :=
  claim_c5_amended 0x8000 (some 0x41ED) (by decide)

/-! ### Path resolution (FFS.get) -/

/-- View of one inode handle as consulted by FFS.get: the raw filetype
hint attribute, the directory entries yielded by iterdir as name-handle
pairs, and the one-hop symlink resolution performed by link_inode (none
when that resolution fails). -/
structure NodeInfo where
  rawType : Option Nat
  children : List (String × Nat)
  linkTarget : Option Nat

/-- The symlink-following while loop inside FFS.get: while the current
node carries the symlink filetype hint and the current part index is below
the number of parts, hop through link_inode.  The loop is unbounded in
Python; fuel models its steps and no theorem depends on exhaustion. -/
def follow_links (info : Nat → NodeInfo) (part_num total : Nat) :
    Nat → Nat → Except FsError Nat
  | node, 0 =>
    if (info node).rawType = some S_IFLNK ∧ part_num < total then
      Except.error FsError.outOfFuel
    else Except.ok node
  | node, fuel + 1 =>
    if (info node).rawType = some S_IFLNK ∧ part_num < total then
      match (info node).linkTarget with
      | some next => follow_links info part_num total next fuel
      | none => Except.error FsError.fileNotFound
    else Except.ok node

/-- The per-part loop of FFS.get from ffs.py: empty parts are skipped,
otherwise symlinks are followed and the children of the current node are
scanned linearly for a matching name, failing with file-not-found when no
child matches. -/
def get_parts (info : Nat → NodeInfo) (fuel total : Nat) :
    List String → Nat → Nat → Except FsError Nat
  | [], _, node => Except.ok node
  | part :: rest, part_num, node =>
    if part = "" then get_parts info fuel total rest (part_num + 1) node
    else
      match follow_links info part_num total node fuel with
      | Except.error e => Except.error e
      | Except.ok node2 =>
        match (info node2).children.find? (fun e => e.1 == part) with
        | some e => get_parts info fuel total rest (part_num + 1) e.2
        | none => Except.error FsError.fileNotFound

/-- Splitting of a character list on a separator with the semantics of the
Python str.split method used by FFS.get: the empty string splits to a
single empty segment, and n separators yield n+1 segments. -/
def pysplit_go (sep : Char) : List Char → String → List String
  | [], acc => [acc]
  | c :: cs, acc =>
    if c = sep then acc :: pysplit_go sep cs "" else pysplit_go sep cs (acc.push c)

/-- Python str.split on a one-character separator, as used by FFS.get. -/
def pysplit (sep : Char) (s : String) : List String :=
  pysplit_go sep s.data ""

/-- FFS.get from ffs.py for string paths: start from the given node (the
root when none is given), split the path on slashes and walk the parts. -/
def FFS.get (info : Nat → NodeInfo) (root : Nat) (fuel : Nat) (path : String)
    (start : Option Nat) : Except FsError Nat :=
  let node := start.getD root
  let parts := pysplit '/' path
  get_parts info fuel parts.length parts 0 node

/-! ### Claim C10 -/

/-- Helper for claim C10: the per-part loop of get skips every empty part
and ends on the node it was given. -/
theorem get_parts_all_empty (info : Nat → NodeInfo) (fuel total : Nat)
    (parts : List String) :
    ∀ (part_num node : Nat), (∀ s ∈ parts, s = "") →
      get_parts info fuel total parts part_num node = Except.ok node := by
  induction parts with
  | nil => intro _ _ _; rfl
  | cons p rest ih =>
    intro pn node h
    have hp : p = "" := h p (List.mem_cons_self _ _)
    unfold get_parts
    rw [if_pos hp]
    exact ih _ _ (fun s hs => h s (List.mem_cons_of_mem _ hs))

/-- Claim C10: for every starting node and every path whose slash-listed
segments are all empty (such as the empty path, a single slash or a double
slash), get returns the starting node itself, the root when no starting
node was given, without raising; the result holds for every possible
directory structure, so no directory lookup can have influenced it. -/
theorem claim_c10 (info : Nat → NodeInfo) (root fuel : Nat) (path : String)
    (start : Option Nat)
    (hempty : ∀ s ∈ pysplit '/' path, s = "") :
    FFS.get info root fuel path start = Except.ok (start.getD root) := by
  unfold FFS.get
  exact get_parts_all_empty info fuel _ _ 0 (start.getD root) hempty

/-- Witness for claim C10: resolving the path made of two slashes from the
root of a concrete one-node volume yields the root back. -/
theorem claim_c10_witness :
    FFS.get (fun _ => ⟨none, [], none⟩) 0 5 "//" none = Except.ok 0 :=
  claim_c10 (fun _ => ⟨none, [], none⟩) 0 5 "//" none (by decide)

/-! ### Directory iteration (INode.iterdir) -/

/-- One decoded on-disk directory entry (struct direct in c_ffs.py),
together with the name read and decoded right after the fixed header. -/
structure Dirent where
  d_ino : Nat
  d_reclen : Nat
  d_type : Nat
  d_namlen : Nat
  d_name : String
deriving DecidableEq

/-- The arguments of the inode handle yielded for one directory entry:
inode number, decoded name and the filetype hint derived as the entry
type shifted left by 12. -/
structure DirEntryOut where
  inum : Nat
  name : String
  filetype : Nat
deriving DecidableEq

/-- The scan loop of INode.iterdir from ffs.py.  The directory data opened
by the inode is modelled by the stream function giving the decoded entry
at each byte offset (none when decoding raises).  The result pairs the
yielded entries with the critical-log event, an (inum, offset) pair
recorded when a zero-length entry ends the scan.  Each non-zero record
length advances the offset by at least one byte, so a fuel of size covers
every run of the Python loop; no theorem relies on fuel exhaustion. -/
def iterdir_go (inum : Nat) (stream : Nat → Option Dirent) (size : Nat) :
    Nat → Nat → Except FsError (List DirEntryOut × Option (Nat × Nat))
  | offset, 0 =>
    if (offset : Int) < (size : Int) - 8 then Except.error FsError.outOfFuel
    else Except.ok ([], none)
  | offset, fuel + 1 =>
    if (offset : Int) < (size : Int) - 8 then
      match stream offset with
      | none => Except.error FsError.decodeFailed
      | some dirent =>
        if dirent.d_reclen = 0 then Except.ok ([], some (inum, offset))
        else
          (iterdir_go inum stream size (offset + dirent.d_reclen) fuel).map
            (fun r => (⟨dirent.d_ino, dirent.d_name, dirent.d_type <<< 12⟩ :: r.1, r.2))
    else Except.ok ([], none)

deriving instance DecidableEq for Except

/-- INode.iterdir from ffs.py: fail on non-directories, then scan the
directory stream from offset 0. -/
def iterdir (inum : Nat) (stream : Nat → Option Dirent) (ftype : Nat)
    (size : Nat) : Except FsError (List DirEntryOut × Option (Nat × Nat)) :=
  if ftype ≠ S_IFDIR then Except.error FsError.notADirectory
  else iterdir_go inum stream size 0 size

/-! ### Claim C4 -/

/-- Counterexample to claim C4: in a directory of size 16 holding a valid
eight-byte entry at offset 0 and another valid entry at offset 8, the scan
stops after the first entry: the loop guard is the strict comparison
offset < size - 8, so at offset 8 = size - 8 the code stops even though
the claim says an offset of at most size - 8 continues reading; the entry
at offset 8 decodes fine and has a nonzero record length, yet is never
yielded. -/
theorem claim_c4_counterexample :
    iterdir 5
        (fun o => if o = 0 then some ⟨11, 8, 4, 1, "a"⟩
          else if o = 8 then some ⟨12, 8, 4, 1, "b"⟩ else none)
        S_IFDIR 16 =
      Except.ok ([⟨11, "a", 4 <<< 12⟩], none) ∧
    (8 : Int) ≤ (16 : Int) - 8 ∧
    (fun o => if o = 0 then some ⟨11, 8, 4, 1, "a"⟩
        else if o = 8 then some ⟨12, 8, 4, 1, "b"⟩ else none : Nat → Option Dirent)
        8 = some ⟨12, 8, 4, 1, "b"⟩ := by
  refine ⟨?_, by decide, by decide⟩
  decide

/-- Claim C4 as amended: iterdir loops while the current offset is
strictly below size - 8 (that is, at most size - 9): whenever the offset
is at least size - 8 the scan stops with no further entry, whatever the
fuel; while the offset is strictly below size - 8 it reads the entry
there, stopping on a zero record length and otherwise yielding the entry
and advancing the offset monotonically by exactly d_reclen. -/
theorem claim_c4_amended (inum : Nat) (stream : Nat → Option Dirent)
    (size offset fuel : Nat) (dirent : Dirent)
    (hin : stream offset = some dirent) :
    (¬ ((offset : Int) < (size : Int) - 8) →
      iterdir_go inum stream size offset fuel = Except.ok ([], none)) ∧
    ((offset : Int) < (size : Int) - 8 → dirent.d_reclen = 0 →
      iterdir_go inum stream size offset (fuel + 1) =
        Except.ok ([], some (inum, offset))) ∧
    ((offset : Int) < (size : Int) - 8 → dirent.d_reclen ≠ 0 →
      iterdir_go inum stream size offset (fuel + 1) =
        (iterdir_go inum stream size (offset + dirent.d_reclen) fuel).map
          (fun r => (⟨dirent.d_ino, dirent.d_name, dirent.d_type <<< 12⟩ :: r.1, r.2))) := by
  refine ⟨?_, ?_, ?_⟩
  · intro hge
    cases fuel with
    | zero =>
      unfold iterdir_go
      rw [if_neg hge]
    | succ n =>
      unfold iterdir_go
      rw [if_neg hge]
  · intro hlt hz
    unfold iterdir_go
    rw [if_pos hlt, hin]
    simp only [if_pos hz]
  · intro hlt hz
    conv_lhs => unfold iterdir_go
    rw [if_pos hlt, hin]
    simp only [if_neg hz]

/-- Witness for the amended claim C4 at a concrete stream, offset and
entry: at offset 8 of a size-16 directory the scan has stopped, while at
offset 0 the entry is read and the offset advances by its record
length. -/
theorem claim_c4_amended_witness :
    (¬ ((8 : Nat) : Int) < ((16 : Nat) : Int) - 8 →
      iterdir_go 5 (fun o => if o = 8 then some ⟨12, 8, 4, 1, "b"⟩ else none)
        16 8 3 = Except.ok ([], none)) ∧
    (((8 : Nat) : Int) < ((16 : Nat) : Int) - 8 → (8 : Nat) = 0 →
      iterdir_go 5 (fun o => if o = 8 then some ⟨12, 8, 4, 1, "b"⟩ else none)
        16 8 (3 + 1) = Except.ok ([], some (5, 8))) ∧
    (((8 : Nat) : Int) < ((16 : Nat) : Int) - 8 → (8 : Nat) ≠ 0 →
      iterdir_go 5 (fun o => if o = 8 then some ⟨12, 8, 4, 1, "b"⟩ else none)
        16 8 (3 + 1) =
        (iterdir_go 5 (fun o => if o = 8 then some ⟨12, 8, 4, 1, "b"⟩ else none)
            16 (8 + 8) 3).map
          (fun r => (⟨12, "b", 4 <<< 12⟩ :: r.1, r.2))) :=
  claim_c4_amended 5 (fun o => if o = 8 then some ⟨12, 8, 4, 1, "b"⟩ else none)
    16 8 3 ⟨12, 8, 4, 1, "b"⟩ (by decide)

/-! ### Claim C7 -/

/-- Claim C7: when the scan reads a directory entry with a zero record
length, iteration stops cleanly with an ok result rather than an error,
yields no further entries, and records the critical-log event naming the
inode number and the offset of the zero-length entry. -/
theorem claim_c7 (inum : Nat) (stream : Nat → Option Dirent)
    (size offset fuel : Nat) (dirent : Dirent)
    (hlt : (offset : Int) < (size : Int) - 8)
    (hin : stream offset = some dirent)
    (hz : dirent.d_reclen = 0) :
    iterdir_go inum stream size offset (fuel + 1) =
      Except.ok ([], some (inum, offset)) := by
  unfold iterdir_go
  rw [if_pos hlt, hin]
  simp only [if_pos hz]

/-- Witness for claim C7: a synthesized all-zero directory stream read as
a size-16 directory stops at once with the critical-log event naming the
inode and offset 0. -/
theorem claim_c7_witness :
    iterdir_go 7 (fun _ => some ⟨0, 0, 0, 0, ""⟩) 16 0 (15 + 1) =
      Except.ok ([], some (7, 0)) :=
  claim_c7 7 (fun _ => some ⟨0, 0, 0, 0, ""⟩) 16 0 15 ⟨0, 0, 0, 0, ""⟩
    (by decide) (by decide) (by decide)

/-! ### The inode block walk (INode._iter_blocks and INode._walk_indirect) -/

/-- The volume state held by an FFS instance as consulted by the block
walk: the validated superblock and the file handle, modelled as the
function giving, for a device byte offset and a slot count, the address
array decoded there (the read of addr_type with that count). -/
structure FFS where
  sb : SB
  readAddrs : Int → Nat → List Int

/-- The decoded fields of an on-disk inode record (ufs1_dinode or
ufs2_dinode) consulted by the embedded operations. -/
structure Dinode where
  di_mode : Nat
  di_size : Nat
  di_db : List Int
  di_ib : List Int
deriving DecidableEq

/-- INode._walk_indirect from ffs.py: yield the current block tagged with
its level; at positive levels, compute how many pointer slots of the
indirect block are needed to cover num_blocks (ceiling division by the
blocks each nested subtree covers, clamped to the pointers per block),
read that many addresses at the device offset of the block, and walk each
at the next lower level.  The Python geometry divisions require at least
one pointer per block; theorems assume fs_nindir is at least one. -/
def walk_indirect (fs : FFS) : Nat → Int → Nat → List (Int × Nat)
  | 0, block, _ => [(block, 0)]
  | level + 1, block, num_blocks =>
    let addresses_per_block := fs.sb.fs_nindir.toNat
    let max_level_blocks := addresses_per_block ^ (level + 1)
    let blocks_per_nest := max_level_blocks / addresses_per_block
    let read_blocks :=
      min ((num_blocks + blocks_per_nest - 1) / blocks_per_nest) addresses_per_block
    (block, level + 1) ::
      ((fs.readAddrs (fsbtodb fs.sb block * DEV_BSIZE) read_blocks).map
        (fun addr => walk_indirect fs level addr num_blocks)).flatten

/-- The level-0 entries of a walk, in order: the data-fragment addresses
that the consuming loop of _iter_blocks keeps (entries of other levels are
skipped by its continue). -/
def walk_leaves (l : List (Int × Nat)) : List Int :=
  l.filterMap (fun p => if p.2 = 0 then some p.1 else none)

/-- The indirect phase of INode._iter_blocks from ffs.py: for each
indirect pointer in turn (levels one, two, three), walk it, keep the
level-0 addresses, stop as soon as num_blocks addresses have been taken
overall, and move to the next level with the reduced count otherwise. -/
def iter_indirect (fs : FFS) : List Int → Nat → Nat → List Int
  | [], _, _ => []
  | ib :: rest, level, num_blocks =>
    let leaves := walk_leaves (walk_indirect fs level ib num_blocks)
    if num_blocks ≤ leaves.length then leaves.take num_blocks
    else leaves ++ iter_indirect fs rest (level + 1) (num_blocks - leaves.length)

/-- The block count of an inode as computed at the top of
INode._iter_blocks: the size rounded up to whole filesystem blocks
(Python floor division on ints; the superblock validation makes fs_bsize
positive, for which Int.ediv agrees with Python). -/
def num_blocks_of (fs : FFS) (ino : Dinode) : Nat :=
  (((ino.di_size : Int) + (fs.sb.fs_bsize - 1)).ediv fs.sb.fs_bsize).toNat

/-- INode._iter_blocks from ffs.py: up to twelve direct addresses from
di_db, then the indirect walk for whatever remains. -/
def iter_blocks (fs : FFS) (ino : Dinode) : List Int :=
  let num_blocks := num_blocks_of fs ino
  let num_direct_blocks := min num_blocks UFS_NDADDR
  let blocks := ino.di_db.take num_direct_blocks
  let remaining := num_blocks - num_direct_blocks
  blocks ++ (if remaining = 0 then [] else iter_indirect fs ino.di_ib 1 remaining)

/-! ### The run-list builder (INode.dataruns) -/

/-- The loop body of INode.dataruns from ffs.py after the first address
has seeded the open run: a contiguous next address (one filesystem block,
that is fs_frag fragments, beyond the open run) extends the run; any other
address closes the open run, converting a zero run offset into the hole
marker none, and opens a fresh run.  The final run is emitted with the
state run offset as is. -/
def dataruns_go (frag : Int) : Int → Int → List Int → List (Option Int × Int)
  | run_offset, run_size, [] => [(some run_offset, run_size * frag)]
  | run_offset, run_size, block_num :: rest =>
    if block_num = run_offset + run_size * frag then
      dataruns_go frag run_offset (run_size + 1) rest
    else
      (if run_offset = 0 then none else some run_offset, run_size * frag) ::
        dataruns_go frag block_num 1 rest

/-- INode.dataruns from ffs.py on an explicit address sequence: an empty
sequence leaves the run offset unset (Python None) so the single final
run is emitted with the hole marker; otherwise the first address opens the
run and the loop body consumes the rest. -/
def dataruns_list (frag : Int) : List Int → List (Option Int × Int)
  | [] => [(none, 1 * frag)]
  | block_num :: rest => dataruns_go frag block_num 1 rest

/-- INode.dataruns from ffs.py: the run list built from the addresses of
the inode block walk, with lengths in fragments. -/
def dataruns (fs : FFS) (ino : Dinode) : List (Option Int × Int) :=
  dataruns_list fs.sb.fs_frag (iter_blocks fs ino)

/-! ### Claim C9 -/

/-- Helper: dropping the head of a list with a nonempty tail keeps the
last element. -/
theorem getLast?_cons_tail {α : Type} (x : α) {l : List α} (h : l ≠ []) :
    (x :: l).getLast? = l.getLast? := by
  cases l with
  | nil => exact absurd rfl h
  | cons y ys => exact List.getLast?_cons_cons

/-- Helper for claim C9: dataruns_go never returns an empty list. -/
theorem dataruns_go_ne_nil (frag : Int) (bs : List Int) :
    ∀ ro rs, dataruns_go frag ro rs bs ≠ [] := by
  induction bs with
  | nil => intro ro rs; unfold dataruns_go; simp
  | cons b rest ih =>
    intro ro rs
    unfold dataruns_go
    by_cases h : b = ro + rs * frag
    · rw [if_pos h]; exact ih ro (rs + 1)
    · rw [if_neg h]; simp

/-- Helper for claim C9: with nonnegative addresses and a positive
fragment count, when the last address of the remaining sequence (or, for
an empty remainder, the last address already absorbed into the open run)
is zero, the final emitted run is the literal pair (some 0, frag): the
final append of dataruns uses the run offset unconverted. -/
theorem dataruns_go_last (frag : Int) (hfrag : 1 ≤ frag) (bs : List Int) :
    ∀ ro rs, 0 ≤ ro → 1 ≤ rs →
      (∀ b ∈ bs, 0 ≤ b) →
      (bs = [] → ro + (rs - 1) * frag = 0) →
      (bs ≠ [] → bs.getLast? = some 0) →
      (dataruns_go frag ro rs bs).getLast? = some (some 0, 1 * frag) := by
  induction bs with
  | nil =>
    intro ro rs hro hrs _ hlast _
    have h0 : ro + (rs - 1) * frag = 0 := hlast rfl
    have hmul : 0 ≤ (rs - 1) * frag := mul_nonneg (by omega) (by omega)
    have hro0 : ro = 0 := by omega
    have hz : (rs - 1) * frag = 0 := by omega
    have hrs1 : rs = 1 := by
      rcases mul_eq_zero.mp hz with h | h
      · omega
      · omega
    subst hrs1
    subst hro0
    unfold dataruns_go
    simp
  | cons b rest ih =>
    intro ro rs hro hrs hnn _ hlast
    have hl : (b :: rest).getLast? = some 0 := hlast (by simp)
    unfold dataruns_go
    by_cases h : b = ro + rs * frag
    · rw [if_pos h]
      refine ih ro (rs + 1) hro (by omega)
        (fun x hx => hnn x (List.mem_cons_of_mem _ hx)) ?_ ?_
      · intro hr
        subst hr
        simp only [List.getLast?_singleton, Option.some.injEq] at hl
        have : ro + rs * frag = 0 := by omega
        have hgoal : ro + (rs + 1 - 1) * frag = ro + rs * frag := by ring_nf
        omega
      · intro hr
        rwa [getLast?_cons_tail _ hr] at hl
    · rw [if_neg h]
      rw [getLast?_cons_tail _ (dataruns_go_ne_nil frag rest b 1)]
      refine ih b 1 (hnn b (List.mem_cons_self _ _)) le_rfl
        (fun x hx => hnn x (List.mem_cons_of_mem _ hx)) ?_ ?_
      · intro hr
        subst hr
        simp only [List.getLast?_singleton, Option.some.injEq] at hl
        simpa using hl
      · intro hr
        rwa [getLast?_cons_tail _ hr] at hl

/-- Claim C9: only runs closed mid-sequence convert a zero run offset into
the hole marker.  First part: for every inode whose fragment-address
sequence is nonempty, consists of nonnegative addresses and ends in a zero
(sparse) address, the final emitted run is the literal pair (0, frag)
rather than a hole entry, because the final append of dataruns does not
apply the zero-to-hole conversion.  Second part: for a size-0 inode the
address sequence is empty and dataruns returns the single run
(hole, frag), one filesystem block worth of fragments, rather than an
empty list. -/
theorem claim_c9 :
    (∀ (fs : FFS) (ino : Dinode),
      1 ≤ fs.sb.fs_frag →
      (∀ b ∈ iter_blocks fs ino, 0 ≤ b) →
      (iter_blocks fs ino).getLast? = some 0 →
      (dataruns fs ino).getLast? = some (some 0, fs.sb.fs_frag)) ∧
    (∀ (fs : FFS) (ino : Dinode),
      1 ≤ fs.sb.fs_bsize → ino.di_size = 0 →
      dataruns fs ino = [(none, fs.sb.fs_frag)]) := by
  constructor
  · intro fs ino hfrag hnn hlast
    unfold dataruns
    cases hbs : iter_blocks fs ino with
    | nil => rw [hbs] at hlast; cases hlast
    | cons b rest =>
      rw [hbs] at hlast hnn
      unfold dataruns_list
      have := dataruns_go_last fs.sb.fs_frag hfrag rest b 1
        (hnn b (List.mem_cons_self _ _)) le_rfl
        (fun x hx => hnn x (List.mem_cons_of_mem _ hx))
        (by
          intro hr
          subst hr
          simp only [List.getLast?_singleton, Option.some.injEq] at hlast
          simpa using hlast)
        (by
          intro hr
          rwa [getLast?_cons_tail _ hr] at hlast)
      rwa [one_mul] at this
  · intro fs ino hbsize hsz
    have hnb : num_blocks_of fs ino = 0 := by
      unfold num_blocks_of
      rw [hsz]
      have heq : (((0 : Nat) : Int) + (fs.sb.fs_bsize - 1)) = fs.sb.fs_bsize - 1 := by
        push_cast
        ring
      have hed : (fs.sb.fs_bsize - 1).ediv fs.sb.fs_bsize = 0 :=
        Int.ediv_eq_zero_of_lt (by omega) (by omega)
      rw [heq, hed]
      rfl
    have hbl : iter_blocks fs ino = [] := by
      simp only [iter_blocks, hnb]
      simp
    unfold dataruns
    rw [hbl]
    unfold dataruns_list
    rw [one_mul]

/-- Witness for claim C9: a two-block file whose second block address is
zero ends its run list with the literal run (0, 8), and an empty file on
the same volume produces the single hole run of one block. -/
theorem claim_c9_witness :
    (dataruns ⟨⟨0x19540119, 1, 32768, 4096, 8, 3, 3, 8192, 128, 64, 4096, 120⟩,
        fun _ k => List.replicate k 0⟩
      ⟨0x8180, 40000, [64, 0, 0, 0, 0, 0, 0, 0, 0, 0, 0, 0], [0, 0, 0]⟩).getLast? =
      some (some 0, 8) ∧
    dataruns ⟨⟨0x19540119, 1, 32768, 4096, 8, 3, 3, 8192, 128, 64, 4096, 120⟩,
        fun _ k => List.replicate k 0⟩
      ⟨0x8180, 0, [64, 0, 0, 0, 0, 0, 0, 0, 0, 0, 0, 0], [0, 0, 0]⟩ =
      [(none, 8)] :=
  ⟨claim_c9.1 _ _ (by decide) (by decide) (by decide),
   claim_c9.2 _ _ (by decide) (by decide)⟩

/-! ### Claim C2: counterexample -/

/-- Concrete volume for the claim C2 theorems: a UFS2 geometry with 32 KiB
blocks, 4 KiB fragments, eight fragments per block and 4096 indirect
pointers per block. -/
def c2fs : FFS :=
  ⟨⟨0x19540119, 1, 32768, 4096, 8, 3, 3, 8192, 128, 64, 4096, 120⟩,
    fun _ k => List.replicate k 0⟩

/-- Concrete empty regular file for the claim C2 counterexample. -/
def c2ino_empty : Dinode := ⟨0x8180, 0, [0, 0, 0, 0, 0, 0, 0, 0, 0, 0, 0, 0], [0, 0, 0]⟩

/-- Concrete 5000-byte regular file for the claim C2 witness. -/
def c2ino_small : Dinode := ⟨0x8180, 5000, [64, 0, 0, 0, 0, 0, 0, 0, 0, 0, 0, 0], [0, 0, 0]⟩

/-- Counterexample to claim C2: for an inode of size zero the run list is
the single hole run of one whole block, so its total length in bytes is
block_size, which is not strictly below size + block_size = block_size;
the claimed upper bound fails on every empty file. -/
theorem claim_c2_counterexample :
    ¬ (((c2ino_empty.di_size : Int) ≤
          ((dataruns c2fs c2ino_empty).map (fun r => r.2 * c2fs.sb.fs_fsize)).sum ∧
        ((dataruns c2fs c2ino_empty).map (fun r => r.2 * c2fs.sb.fs_fsize)).sum <
          (c2ino_empty.di_size : Int) + c2fs.sb.fs_bsize)) := by
  decide

/-! ### Short symlink inline decoding (INode.open) -/

/-- The filesystem version derived in FFS.__init__: 1 for the UFS1 magic,
2 otherwise. -/
def FFS.version (sb : SB) : Nat := if sb.fs_magic = FS_UFS1_MAGIC then 1 else 2

/-- The byte width of one on-disk block address: ufs1_daddr_t is a 4-byte
int32, ufs2_daddr_t an 8-byte int64, chosen by FFS.__init__ from the
version. -/
def FFS.addrWidth (sb : SB) : Nat := if FFS.version sb = 1 then 4 else 8

/-- The little-endian two-complement byte encoding of one signed block
address, as written by the cstruct addr_type write call in INode.open. -/
def int_to_le (w : Nat) (v : Int) : List Nat :=
  (List.range w).map (fun i => ((v.emod (2 ^ (8 * w))).toNat >>> (8 * i)) % 256)

/-- The byte image of an address array as written to the scratch buffer by
INode.open: each slot encoded little-endian, in slot order. -/
def write_addrs (w : Nat) (addrs : List Int) : List Nat :=
  (addrs.map (int_to_le w)).flatten

/-- The reader returned by INode.open: either the in-memory bytes of a
short inline symlink target (the truncated scratch buffer, whose read
yields at most size bytes) or a RunlistStream over the run list with the
total size and the fragment size as its block size. -/
inductive Reader where
  | inline (data : List Nat) (size : Nat)
  | runlist (runs : List (Option Int × Int)) (size : Nat) (block_size : Int)
deriving DecidableEq

/-- The attributes of one INode handle consulted by INode.open: the inode
number, the name and filetype hint given at construction, and the decoded
on-disk record. -/
structure INodeSt where
  inum : Nat
  name : Option String
  filetype : Option Nat
  dino : Dinode
deriving DecidableEq

/-- INode.type as evaluated on a loadable record: the filetype hint when
truthy, otherwise the masked mode of the record. -/
def INode.type_of (st : INodeSt) : Nat :=
  (INode.itype st.filetype (some st.dino.di_mode)).getD 0

/-- INode.open from ffs.py: when the inode is a symlink whose size is
strictly below fs_maxsymlinklen, the target is stored inline in the
di_db followed by di_ib address slots; the slots are written back to a
scratch buffer in their on-disk little-endian encoding and the buffer is
truncated to the inode size (BytesIO truncation never pads, hence the
take).  Otherwise the dataruns back a RunlistStream of the inode size
with the fragment size as block size. -/
def INode.openReader (fs : FFS) (st : INodeSt) : Reader :=
  if INode.type_of st = S_IFLNK ∧ (st.dino.di_size : Int) < fs.sb.fs_maxsymlinklen then
    Reader.inline
      ((write_addrs (FFS.addrWidth fs.sb) st.dino.di_db ++
        write_addrs (FFS.addrWidth fs.sb) st.dino.di_ib).take st.dino.di_size)
      st.dino.di_size
  else
    Reader.runlist (dataruns fs st.dino) st.dino.di_size fs.sb.fs_fsize

/-! ### Claim C6 -/

/-- Helper for claim C6: mapping every element to a constant-length list
and flattening yields length times that constant. -/
theorem flatten_map_const_length {α : Type} (w : Nat) (f : α → List Nat)
    (hf : ∀ a, (f a).length = w) :
    ∀ l : List α, ((l.map f).flatten).length = l.length * w := by
  intro l
  induction l with
  | nil => simp
  | cons a rest ih =>
    simp only [List.map_cons, List.flatten_cons, List.length_append, ih,
      List.length_cons, hf a]
    ring

/-- Claim C6: for every inode with the symlink type and size strictly
below fs_maxsymlinklen, open returns a reader over exactly the first size
bytes of the region formed by concatenating the little-endian encodings of
the twelve direct address slots followed by the three indirect address
slots; with full slot arrays that region is 15 addresses wide. -/
theorem claim_c6 (fs : FFS) (st : INodeSt)
    (hsym : INode.type_of st = S_IFLNK)
    (hlt : (st.dino.di_size : Int) < fs.sb.fs_maxsymlinklen)
    (hdb : st.dino.di_db.length = UFS_NDADDR)
    (hib : st.dino.di_ib.length = UFS_NIADDR) :
    INode.openReader fs st =
      Reader.inline
        ((((st.dino.di_db ++ st.dino.di_ib).map (int_to_le (FFS.addrWidth fs.sb))).flatten).take
          st.dino.di_size)
        st.dino.di_size ∧
    (((st.dino.di_db ++ st.dino.di_ib).map (int_to_le (FFS.addrWidth fs.sb))).flatten).length
      = 15 * FFS.addrWidth fs.sb := by
  constructor
  · unfold INode.openReader
    rw [if_pos ⟨hsym, hlt⟩]
    unfold write_addrs
    rw [← List.flatten_append, ← List.map_append]
  · rw [flatten_map_const_length (FFS.addrWidth fs.sb) _ (fun a => by simp [int_to_le])]
    rw [List.length_append, hdb, hib]
    rfl

/-- Witness for claim C6: a UFS2 inode storing the two-byte target inline
in its first direct slot opens to exactly those two bytes. -/
theorem claim_c6_witness :
    INode.openReader
        ⟨⟨0x19540119, 1, 32768, 4096, 8, 3, 3, 8192, 128, 64, 4096, 120⟩,
          fun _ k => List.replicate k 0⟩
        ⟨9, some "lnk", none,
          ⟨0xA1FF, 2, [0x6261, 0, 0, 0, 0, 0, 0, 0, 0, 0, 0, 0], [0, 0, 0]⟩⟩ =
      Reader.inline [0x61, 0x62] 2 :=
  Eq.trans
    (claim_c6 _ _ (by decide) (by decide) (by decide) (by decide)).1
    (by decide)

/-! ### Claim C2: the walk produces exactly the block count -/

/-- The number of level-0 leaves a walk at the given level with the given
num_blocks argument produces, assuming the readAddrs function returns
exactly the requested number of slots; mirrors the recursion of
walk_indirect. -/
def walk_count (apb : Nat) : Nat → Nat → Nat
  | 0, _ => 1
  | level + 1, n =>
    let blocks_per_nest := apb ^ (level + 1) / apb
    min ((n + blocks_per_nest - 1) / blocks_per_nest) apb * walk_count apb level n

/-- Helper: the leaves selector distributes over list append. -/
theorem walk_leaves_append (l1 l2 : List (Int × Nat)) :
    walk_leaves (l1 ++ l2) = walk_leaves l1 ++ walk_leaves l2 := by
  unfold walk_leaves
  rw [List.filterMap_append]

/-- Helper for claim C2: with a readAddrs function honouring the requested
slot counts, the number of leaves of a walk depends only on the level and
the num_blocks argument, and equals walk_count. -/
theorem walk_leaves_length (fs : FFS)
    (hlen : ∀ o k, (fs.readAddrs o k).length = k) :
    ∀ (level : Nat) (block : Int) (n : Nat),
      (walk_leaves (walk_indirect fs level block n)).length =
        walk_count fs.sb.fs_nindir.toNat level n := by
  intro level
  induction level with
  | zero =>
    intro b n
    simp [walk_indirect, walk_leaves, walk_count, List.filterMap]
  | succ l ih =>
    intro b n
    have haux : ∀ (addrs : List Int),
        (walk_leaves ((addrs.map (fun a => walk_indirect fs l a n)).flatten)).length =
          addrs.length * walk_count fs.sb.fs_nindir.toNat l n := by
      intro addrs
      induction addrs with
      | nil => simp [walk_leaves]
      | cons a rest ihr =>
        simp only [List.map_cons, List.flatten_cons, walk_leaves_append,
          List.length_append, ihr, ih a n, List.length_cons]
        ring
    simp only [walk_indirect]
    have hhead : walk_leaves
        (((b, l + 1) ::
          ((fs.readAddrs (fsbtodb fs.sb b * DEV_BSIZE)
            (min ((n + fs.sb.fs_nindir.toNat ^ (l + 1) / fs.sb.fs_nindir.toNat - 1) /
              (fs.sb.fs_nindir.toNat ^ (l + 1) / fs.sb.fs_nindir.toNat))
              fs.sb.fs_nindir.toNat)).map
            (fun addr => walk_indirect fs l addr n)).flatten)) =
        walk_leaves
          (((fs.readAddrs (fsbtodb fs.sb b * DEV_BSIZE)
            (min ((n + fs.sb.fs_nindir.toNat ^ (l + 1) / fs.sb.fs_nindir.toNat - 1) /
              (fs.sb.fs_nindir.toNat ^ (l + 1) / fs.sb.fs_nindir.toNat))
              fs.sb.fs_nindir.toNat)).map
            (fun addr => walk_indirect fs l addr n)).flatten) := by
      unfold walk_leaves
      rw [List.filterMap_cons]
      simp
    rw [hhead, haux, hlen]
    rfl

/-- Helper: the rounded-up quotient is positive when the dividend is. -/
theorem ceil_div_pos (n b : Nat) (hb : 1 ≤ b) (hn : 1 ≤ n) :
    1 ≤ (n + b - 1) / b := by
  rw [Nat.one_le_div_iff (by omega)]
  omega

/-- Helper: multiplying the rounded-up quotient back reaches the
dividend. -/
theorem ceil_div_mul_ge (n b : Nat) (hb : 1 ≤ b) : n ≤ (n + b - 1) / b * b := by
  have hdm := Nat.div_add_mod (n + b - 1) b
  have hmlt : (n + b - 1) % b < b := Nat.mod_lt _ (by omega)
  have hcomm : (n + b - 1) / b * b = b * ((n + b - 1) / b) := Nat.mul_comm _ _
  omega

/-- Helper for claim C2: a walk with a positive pointers-per-block count
and positive num_blocks produces at least min num_blocks (pointers per
block to the level) leaves. -/
theorem walk_count_ge (apb : Nat) (hapb : 1 ≤ apb) :
    ∀ (level n : Nat), 1 ≤ n → min n (apb ^ level) ≤ walk_count apb level n := by
  intro level
  induction level with
  | zero =>
    intro n hn
    simp only [walk_count, pow_zero]
    omega
  | succ l ih =>
    intro n hn
    simp only [walk_count]
    have hbpn : apb ^ (l + 1) / apb = apb ^ l := by
      rw [pow_succ]
      exact Nat.mul_div_cancel _ (by omega)
    rw [hbpn]
    have hihn := ih n hn
    by_cases hc : n ≤ apb ^ l
    · have h1 : 1 ≤ (n + apb ^ l - 1) / apb ^ l :=
        ceil_div_pos n (apb ^ l) (Nat.one_le_pow _ _ (by omega)) hn
      have h2 : min n (apb ^ l) = n := by omega
      have h3 : n ≤ walk_count apb l n := by omega
      have h4 : 1 ≤ min ((n + apb ^ l - 1) / apb ^ l) apb := by omega
      calc min n (apb ^ (l + 1)) ≤ n := by omega
        _ = 1 * n := (one_mul n).symm
        _ ≤ min ((n + apb ^ l - 1) / apb ^ l) apb * walk_count apb l n :=
          Nat.mul_le_mul h4 h3
    · push_neg at hc
      have hwc : apb ^ l ≤ walk_count apb l n := by omega
      by_cases hd : apb ≤ (n + apb ^ l - 1) / apb ^ l
      · have h2 : min ((n + apb ^ l - 1) / apb ^ l) apb = apb := by omega
        rw [h2]
        calc min n (apb ^ (l + 1)) ≤ apb ^ (l + 1) := by omega
          _ = apb * apb ^ l := by rw [pow_succ]; ring
          _ ≤ apb * walk_count apb l n := Nat.mul_le_mul_left _ hwc
      · push_neg at hd
        have h2 : min ((n + apb ^ l - 1) / apb ^ l) apb = (n + apb ^ l - 1) / apb ^ l := by
          omega
        rw [h2]
        have hge : n ≤ (n + apb ^ l - 1) / apb ^ l * apb ^ l :=
          ceil_div_mul_ge n (apb ^ l) (Nat.one_le_pow _ _ (by omega))
        calc min n (apb ^ (l + 1)) ≤ n := by omega
          _ ≤ (n + apb ^ l - 1) / apb ^ l * apb ^ l := hge
          _ ≤ (n + apb ^ l - 1) / apb ^ l * walk_count apb l n :=
            Nat.mul_le_mul_left _ hwc

/-- The capacity of consecutive indirection levels: the sum of pointers
per block raised to the successive levels, starting at the given level,
over the given number of indirect slots. -/
def sum_levels (apb : Nat) : Nat → Nat → Nat
  | _, 0 => 0
  | level, cnt + 1 => apb ^ level + sum_levels apb (level + 1) cnt

/-- Helper for claim C2: when the remaining block count fits within the
capacity of the available indirection levels, the indirect phase yields
exactly that many addresses. -/
theorem iter_indirect_length (fs : FFS)
    (hlen : ∀ o k, (fs.readAddrs o k).length = k)
    (hapb : 1 ≤ fs.sb.fs_nindir.toNat) :
    ∀ (ibs : List Int) (level n : Nat), 1 ≤ n →
      n ≤ sum_levels fs.sb.fs_nindir.toNat level ibs.length →
      (iter_indirect fs ibs level n).length = n := by
  intro ibs
  induction ibs with
  | nil =>
    intro level n h1 h2
    simp only [List.length_nil, sum_levels] at h2
    omega
  | cons ib rest ih =>
    intro level n h1 h2
    simp only [List.length_cons, sum_levels] at h2
    simp only [iter_indirect]
    have hwc : (walk_leaves (walk_indirect fs level ib n)).length =
        walk_count fs.sb.fs_nindir.toNat level n :=
      walk_leaves_length fs hlen level ib n
    have hge : min n (fs.sb.fs_nindir.toNat ^ level) ≤
        walk_count fs.sb.fs_nindir.toNat level n :=
      walk_count_ge fs.sb.fs_nindir.toNat hapb level n h1
    by_cases hc : n ≤ (walk_leaves (walk_indirect fs level ib n)).length
    · rw [if_pos hc]
      rw [List.length_take]
      omega
    · rw [if_neg hc]
      push_neg at hc
      rw [List.length_append]
      have hL : fs.sb.fs_nindir.toNat ^ level ≤
          (walk_leaves (walk_indirect fs level ib n)).length := by
        rw [hwc]
        omega
      rw [ih (level + 1) (n - (walk_leaves (walk_indirect fs level ib n)).length)
        (by omega) (by omega)]
      omega

/-- Helper for claim C2: when the block count of the inode fits within the
twelve direct slots plus the capacity of the three indirection levels, the
block walk yields exactly num_blocks addresses. -/
theorem iter_blocks_length (fs : FFS) (ino : Dinode)
    (hlen : ∀ o k, (fs.readAddrs o k).length = k)
    (hapb : 1 ≤ fs.sb.fs_nindir.toNat)
    (hdb : ino.di_db.length = 12)
    (hib : ino.di_ib.length = 3)
    (hcap : num_blocks_of fs ino ≤
      12 + fs.sb.fs_nindir.toNat + fs.sb.fs_nindir.toNat ^ 2 +
        fs.sb.fs_nindir.toNat ^ 3) :
    (iter_blocks fs ino).length = num_blocks_of fs ino := by
  have hsum : sum_levels fs.sb.fs_nindir.toNat 1 3 =
      fs.sb.fs_nindir.toNat ^ 1 + (fs.sb.fs_nindir.toNat ^ 2 +
        (fs.sb.fs_nindir.toNat ^ 3 + 0)) := by
    simp [sum_levels]
  simp only [iter_blocks]
  by_cases h0 : num_blocks_of fs ino - min (num_blocks_of fs ino) UFS_NDADDR = 0
  · rw [if_pos h0]
    rw [List.length_append, List.length_take, hdb]
    simp only [List.length_nil, UFS_NDADDR] at h0 ⊢
    omega
  · rw [if_neg h0]
    rw [List.length_append, List.length_take, hdb]
    rw [iter_indirect_length fs hlen hapb ino.di_ib 1 _ (by omega)
      (by
        rw [hib, hsum]
        simp only [pow_one, UFS_NDADDR] at hcap h0 ⊢
        omega)]
    simp only [UFS_NDADDR] at h0 ⊢
    omega

/-- Helper for claim C2: the total fragment count of the runs built by the
loop body is the open run size plus one fragment-per-block stride for each
remaining address. -/
theorem dataruns_go_sum (frag : Int) :
    ∀ (bs : List Int) (ro rs : Int),
      ((dataruns_go frag ro rs bs).map (fun r => r.2)).sum =
        (rs + bs.length) * frag := by
  intro bs
  induction bs with
  | nil =>
    intro ro rs
    simp [dataruns_go]
  | cons bn rest ih =>
    intro ro rs
    unfold dataruns_go
    by_cases h : bn = ro + rs * frag
    · rw [if_pos h, ih]
      push_cast [List.length_cons]
      ring
    · rw [if_neg h]
      simp only [List.map_cons, List.sum_cons, ih]
      push_cast [List.length_cons]
      ring

/-- Helper for claim C2: the total fragment count of the run list of a
nonempty address sequence is the sequence length times the fragments per
block. -/
theorem dataruns_list_sum (frag : Int) (bs : List Int) (h : bs ≠ []) :
    ((dataruns_list frag bs).map (fun r => r.2)).sum = bs.length * frag := by
  cases bs with
  | nil => exact absurd rfl h
  | cons bn rest =>
    unfold dataruns_list
    rw [dataruns_go_sum]
    push_cast [List.length_cons]
    ring

/-- Claim C2 as amended: for every inode of size at least one byte, on
geometry where the fragment and block sizes are positive with bsize equal
to frag times fsize, at least one indirect pointer per block, a readAddrs
function honouring requested counts, full address arrays, and a block
count within the capacity of the direct slots plus three indirection
levels, the run list total length in bytes is at least the size and
strictly below size plus block size.  (The claim as stated fails for
size-0 inodes, see the counterexample.) -/
theorem claim_c2_amended (fs : FFS) (ino : Dinode)
    (hlen : ∀ o k, (fs.readAddrs o k).length = k)
    (hdb : ino.di_db.length = 12)
    (hib : ino.di_ib.length = 3)
    (hfsize : 1 ≤ fs.sb.fs_fsize)
    (hfrag : 1 ≤ fs.sb.fs_frag)
    (hbz : fs.sb.fs_bsize = fs.sb.fs_frag * fs.sb.fs_fsize)
    (hnin : 1 ≤ fs.sb.fs_nindir)
    (hsz : 1 ≤ ino.di_size)
    (hcap : num_blocks_of fs ino ≤
      12 + fs.sb.fs_nindir.toNat + fs.sb.fs_nindir.toNat ^ 2 +
        fs.sb.fs_nindir.toNat ^ 3) :
    (ino.di_size : Int) ≤
        ((dataruns fs ino).map (fun r => r.2 * fs.sb.fs_fsize)).sum ∧
      ((dataruns fs ino).map (fun r => r.2 * fs.sb.fs_fsize)).sum <
        (ino.di_size : Int) + fs.sb.fs_bsize := by
  have hb1 : (1 : Int) ≤ fs.sb.fs_bsize := by
    rw [hbz]
    nlinarith
  have hapb : 1 ≤ fs.sb.fs_nindir.toNat := by omega
  have hs1 : (1 : Int) ≤ (ino.di_size : Int) := by exact_mod_cast hsz
  have hq0 : (0 : Int) ≤ ((ino.di_size : Int) + (fs.sb.fs_bsize - 1)) / fs.sb.fs_bsize :=
    Int.ediv_nonneg (by omega) (by omega)
  have hnbq : ((num_blocks_of fs ino : Nat) : Int) =
      ((ino.di_size : Int) + (fs.sb.fs_bsize - 1)) / fs.sb.fs_bsize := by
    unfold num_blocks_of
    exact Int.toNat_of_nonneg hq0
  have hq1 : (1 : Int) ≤ ((ino.di_size : Int) + (fs.sb.fs_bsize - 1)) / fs.sb.fs_bsize := by
    rw [Int.le_ediv_iff_mul_le (by omega : (0 : Int) < fs.sb.fs_bsize)]
    omega
  have hnb1 : 1 ≤ num_blocks_of fs ino := by
    have : (1 : Int) ≤ ((num_blocks_of fs ino : Nat) : Int) := by
      rw [hnbq]; exact hq1
    exact_mod_cast this
  have hlength : (iter_blocks fs ino).length = num_blocks_of fs ino :=
    iter_blocks_length fs ino hlen hapb hdb hib hcap
  have hne : iter_blocks fs ino ≠ [] := by
    intro h
    rw [h] at hlength
    simp only [List.length_nil] at hlength
    omega
  have htot : ((dataruns fs ino).map (fun r => r.2 * fs.sb.fs_fsize)).sum =
      ((num_blocks_of fs ino : Nat) : Int) * fs.sb.fs_bsize := by
    have hmr : ((dataruns fs ino).map (fun r => r.2 * fs.sb.fs_fsize)).sum =
        ((dataruns fs ino).map (fun r => r.2)).sum * fs.sb.fs_fsize :=
      List.sum_map_mul_right (dataruns fs ino)
        (fun r : Option Int × Int => r.2) fs.sb.fs_fsize
    rw [hmr]
    unfold dataruns
    rw [dataruns_list_sum _ _ hne, hlength, hbz]
    ring
  rw [htot, hnbq]
  set s : Int := (ino.di_size : Int) with hsdef
  set b : Int := fs.sb.fs_bsize with hbdef
  set q : Int := (s + (b - 1)) / b with hqdef
  have hdm := Int.ediv_add_emod (s + (b - 1)) b
  have hmod : 0 ≤ (s + (b - 1)) % b := Int.emod_nonneg _ (by omega)
  have hlt := Int.lt_ediv_add_one_mul_self (s + (b - 1)) (by omega : (0 : Int) < b)
  have hcomm : b * q = q * b := mul_comm _ _
  have hplus : (q + 1) * b = q * b + b := by ring
  constructor
  · rw [← hqdef] at hlt
    rw [hplus] at hlt
    omega
  · rw [← hqdef] at hdm
    rw [hcomm] at hdm
    omega

/-- Witness for the amended claim C2: a 5000-byte file in one direct
32 KiB block has run-list total 32768 bytes, between 5000 and 37768. -/
theorem claim_c2_amended_witness :
    ((c2ino_small.di_size : Int) ≤
        ((dataruns c2fs c2ino_small).map (fun r => r.2 * c2fs.sb.fs_fsize)).sum ∧
      ((dataruns c2fs c2ino_small).map (fun r => r.2 * c2fs.sb.fs_fsize)).sum <
        (c2ino_small.di_size : Int) + c2fs.sb.fs_bsize) :=
  claim_c2_amended c2fs c2ino_small
    (fun _ k => List.length_replicate k 0)
    (by decide) (by decide) (by decide) (by decide) (by decide) (by decide)
    (by decide) (by decide)
